import Mathlib

/-
Verification of the wind pressure calculation engine of `src/app.py`
(ASCE 7 wind load calculator).

The engine consists of:
  * `get_kz` (src/app.py lines 311-328): the exposure-coefficient lookup,
    a piecewise-linear interpolation over Table 26.10-1 (ASCE 7-16),
    with the input height clamped to the tabulated range [15, 500];
  * the constants `Kzt = 1.0` and `Ke = 1.0` (lines 334-335);
  * the velocity pressure `q = 0.00256 * Kz * Kzt * Kd * Ke * V ** 2`
    (line 338).

Python floats are modelled as exact rationals (`ℚ`): every arithmetic
operation performed by the engine on its tabulated values is a ratio of
small integers, so the rational model is the intended real-number
semantics of the code.  Raising `KeyError` (the dict lookup
`table[exposure]` with an exposure outside {B, C, D}) is modelled as
`Except.error`.
-/

/-- Exposure B column of Table 26.10-1 (ASCE 7-16), the dict
`table["B"]` of `get_kz` (src/app.py line 314), with its keys in the
sorted order the code iterates them in. -/
def tableB : List (ℚ × ℚ) :=
  [(15, 0.57), (20, 0.62), (25, 0.66), (30, 0.70), (40, 0.76), (50, 0.81),
   (60, 0.85), (70, 0.89), (80, 0.93), (90, 0.96), (100, 0.99), (120, 1.04),
   (140, 1.09), (160, 1.13), (200, 1.20), (250, 1.28), (300, 1.35),
   (350, 1.41), (400, 1.47), (450, 1.52), (500, 1.56)]

/-- Exposure C column of Table 26.10-1, `table["C"]` (line 315). -/
def tableC : List (ℚ × ℚ) :=
  [(15, 0.85), (20, 0.90), (25, 0.94), (30, 0.98), (40, 1.04), (50, 1.09),
   (60, 1.13), (70, 1.17), (80, 1.21), (90, 1.24), (100, 1.26), (120, 1.31),
   (140, 1.36), (160, 1.39), (200, 1.46), (250, 1.53), (300, 1.59),
   (350, 1.64), (400, 1.69), (450, 1.73), (500, 1.77)]

/-- Exposure D column of Table 26.10-1, `table["D"]` (line 316). -/
def tableD : List (ℚ × ℚ) :=
  [(15, 1.03), (20, 1.08), (25, 1.12), (30, 1.16), (40, 1.22), (50, 1.27),
   (60, 1.31), (70, 1.34), (80, 1.38), (90, 1.40), (100, 1.43), (120, 1.48),
   (140, 1.52), (160, 1.55), (200, 1.61), (250, 1.68), (300, 1.73),
   (350, 1.78), (400, 1.82), (450, 1.86), (500, 1.89)]

/-- The dict `table` of `get_kz` (lines 313-317): category → breakpoint
column; a key outside {B, C, D} has no entry (Python raises `KeyError`). -/
def kzTable (exposure : String) : Option (List (ℚ × ℚ)) :=
  if exposure = "B" then some tableB
  else if exposure = "C" then some tableC
  else if exposure = "D" then some tableD
  else none

/-- `h = min(max(height_ft, 15), 500)` (line 319). -/
def clampH (h : ℚ) : ℚ := min (max h 15) 500

/-- Python dict access `d[k]` on an association list with distinct keys
(used to model `table[exposure][500]`, line 328); a missing key never
occurs on the concrete tables, so the `0` default is inert. -/
def dictGet (k : ℚ) : List (ℚ × ℚ) → ℚ
  | [] => 0
  | p :: rest => if p.1 = k then p.2 else dictGet k rest

/-- The interpolation loop of `get_kz` (lines 323-328): walk the
consecutive breakpoint pairs in sorted-key order; on the first pair
`(h1, k1), (h2, k2)` with `h1 ≤ h ≤ h2` return
`k1 + (k2 - k1) * ((h - h1) / (h2 - h1))`; if no pair matches, fall
through to `return table[exposure][500]`, the `last` argument. -/
def interpLoop : List (ℚ × ℚ) → ℚ → ℚ → ℚ
  | a :: b :: rest, h, last =>
      if a.1 ≤ h ∧ h ≤ b.1 then a.2 + (b.2 - a.2) * ((h - a.1) / (b.1 - a.1))
      else interpLoop (b :: rest) h last
  | _, _, last => last

/-- `get_kz(height_ft, exposure)` (lines 311-328).  The dict access
`table[exposure]` raises `KeyError` for a category outside {B, C, D},
modelled as `Except.error`; otherwise the clamped height is interpolated,
with `table[exposure][500]` (the key-500 entry) as the loop's fallback. -/
def get_kz (height_ft : ℚ) (exposure : String) : Except String ℚ :=
  match kzTable exposure with
  | some tbl =>
      Except.ok (interpLoop tbl (clampH height_ft) (dictGet 500 tbl))
  | none => Except.error "KeyError"

/-- `Kzt = 1.0` (line 334). -/
def Kzt : ℚ := 1.0

/-- `Ke = 1.0` (line 335): the app hard-codes the ground elevation factor. -/
def Ke : ℚ := 1.0

/-- `q = 0.00256 * Kz * Kzt * Kd * Ke * (V ** 2)` (lines 330, 338), with
`Kz = get_kz(height, exposure)`; an invalid exposure propagates the
`KeyError` instead of producing a pressure. -/
def q_calc (height_ft : ℚ) (exposure : String) (V Kd : ℚ) : Except String ℚ :=
  (get_kz height_ft exposure).map fun Kz => 0.00256 * Kz * Kzt * Kd * Ke * V ^ 2

/-- Modelled from the spec: `src/app.py` contains no design-pressure
resolver (the app stops at the velocity pressure `q`); the
coefficient-method path `p = qh * (GCp - GCpi)`, together with its
kPa report `p * 0.0478803`, is taken from the spec (§4.4, §6). -/
def resolveCoefficientMethod (qh GCp GCpi : ℚ) : ℚ × ℚ :=
  let p := qh * (GCp - GCpi)
  (p, p * 0.0478803)

/-- The list of consecutive breakpoint pairs a table's interpolation
loop visits (the pairs `(heights[i], heights[i+1])` of lines 323-324,
with their coefficient values attached). -/
def consecPairs : List (ℚ × ℚ) → List ((ℚ × ℚ) × (ℚ × ℚ))
  | a :: b :: rest => (a, b) :: consecPairs (b :: rest)
  | _ => []

/-- Breakpoint ordering of a table column: strictly increasing heights
(sorted dict keys) with non-decreasing coefficient values. -/
def tblRel (u v : ℚ × ℚ) : Prop := u.1 < v.1 ∧ u.2 ≤ v.2

instance : IsTrans (ℚ × ℚ) tblRel :=
  ⟨fun _ _ _ h1 h2 => ⟨lt_trans h1.1 h2.1, le_trans h1.2 h2.2⟩⟩

instance : DecidableRel tblRel := fun u v => by
  unfold tblRel; infer_instance

/-- Well-formedness of a breakpoint column: strictly increasing heights,
non-decreasing coefficients, all heights within the clamping range
[15, 500] with 15 the first and 500 the last breakpoint, and at least
two breakpoints. -/
def goodTable (l : List (ℚ × ℚ)) : Prop :=
  l.Pairwise tblRel ∧
  (∀ p ∈ l, 15 ≤ p.1 ∧ p.1 ≤ 500) ∧
  (l.headD (0, 0)).1 = 15 ∧ (l.getLastD (0, 0)).1 = 500 ∧ 2 ≤ l.length

-- Evaluation lemmas for the three concrete columns of the table dict.

lemma kzTable_B : kzTable "B" = some tableB := by simp [kzTable]

lemma kzTable_C : kzTable "C" = some tableC := by simp [kzTable]

lemma kzTable_D : kzTable "D" = some tableD := by simp [kzTable]

lemma goodTable_tableB : goodTable tableB := by
  refine ⟨List.chain'_iff_pairwise.mp ?_, ?_, ?_, ?_, ?_⟩ <;>
    norm_num [tableB, List.chain'_cons, tblRel, List.getLastD]

lemma goodTable_tableC : goodTable tableC := by
  refine ⟨List.chain'_iff_pairwise.mp ?_, ?_, ?_, ?_, ?_⟩ <;>
    norm_num [tableC, List.chain'_cons, tblRel, List.getLastD]

lemma goodTable_tableD : goodTable tableD := by
  refine ⟨List.chain'_iff_pairwise.mp ?_, ?_, ?_, ?_, ?_⟩ <;>
    norm_num [tableD, List.chain'_cons, tblRel, List.getLastD]

lemma goodTable_of_kzTable {cat : String} {tbl : List (ℚ × ℚ)}
    (h : kzTable cat = some tbl) : goodTable tbl := by
  unfold kzTable at h
  split_ifs at h <;> cases h
  · exact goodTable_tableB
  · exact goodTable_tableC
  · exact goodTable_tableD

lemma kzTable_cases {cat : String} {tbl : List (ℚ × ℚ)}
    (h : kzTable cat = some tbl) :
    tbl = tableB ∨ tbl = tableC ∨ tbl = tableD := by
  unfold kzTable at h
  split_ifs at h <;> cases h
  · exact Or.inl rfl
  · exact Or.inr (Or.inl rfl)
  · exact Or.inr (Or.inr rfl)

lemma get_kz_eq {cat : String} {tbl : List (ℚ × ℚ)}
    (ht : kzTable cat = some tbl) (h : ℚ) :
    get_kz h cat = Except.ok (interpLoop tbl (clampH h) (dictGet 500 tbl)) := by
  unfold get_kz
  rw [ht]

-- Behavior of the clamp `min(max(height_ft, 15), 500)`.

lemma clampH_mono {x y : ℚ} (hxy : x ≤ y) : clampH x ≤ clampH y :=
  min_le_min (max_le_max hxy (le_refl 15)) (le_refl 500)

lemma clampH_lb (h : ℚ) : 15 ≤ clampH h :=
  le_min (le_max_right h 15) (by norm_num)

lemma clampH_ub (h : ℚ) : clampH h ≤ 500 := min_le_right _ _

lemma clampH_eq_self {h : ℚ} (h1 : 15 ≤ h) (h2 : h ≤ 500) : clampH h = h := by
  unfold clampH
  rw [max_eq_left h1, min_eq_left h2]

lemma clampH_of_le {h : ℚ} (hle : h ≤ 15) : clampH h = 15 := by
  unfold clampH
  rw [max_eq_right hle, min_eq_left (by norm_num)]

lemma clampH_of_ge {h : ℚ} (hge : 500 ≤ h) : clampH h = 500 := by
  unfold clampH
  rw [max_eq_left (le_trans (by norm_num) hge), min_eq_right hge]

-- Unfolding equations for the interpolation loop and consecutive pairs.

lemma interpLoop_nil (h last : ℚ) : interpLoop [] h last = last := rfl

lemma interpLoop_single (a : ℚ × ℚ) (h last : ℚ) :
    interpLoop [a] h last = last := rfl

lemma interpLoop_cons_cons (a b : ℚ × ℚ) (rest : List (ℚ × ℚ)) (h last : ℚ) :
    interpLoop (a :: b :: rest) h last =
      if a.1 ≤ h ∧ h ≤ b.1 then a.2 + (b.2 - a.2) * ((h - a.1) / (b.1 - a.1))
      else interpLoop (b :: rest) h last := rfl

lemma consecPairs_nil : consecPairs [] = [] := rfl

lemma consecPairs_single (a : ℚ × ℚ) : consecPairs [a] = [] := rfl

lemma consecPairs_cons_cons (a b : ℚ × ℚ) (rest : List (ℚ × ℚ)) :
    consecPairs (a :: b :: rest) = (a, b) :: consecPairs (b :: rest) := rfl

lemma mem_of_mem_consecPairs :
    ∀ (l : List (ℚ × ℚ)) (p q : ℚ × ℚ), (p, q) ∈ consecPairs l → p ∈ l ∧ q ∈ l
  | [], p, q, hm => by simp [consecPairs_nil] at hm
  | [a], p, q, hm => by simp [consecPairs_single] at hm
  | a :: b :: rest, p, q, hm => by
    rw [consecPairs_cons_cons] at hm
    rcases List.mem_cons.mp hm with heq | hmem
    · rw [Prod.mk.injEq] at heq
      obtain ⟨rfl, rfl⟩ := heq
      exact ⟨List.mem_cons_self _ _, List.mem_cons_of_mem _ (List.mem_cons_self _ _)⟩
    · have ih := mem_of_mem_consecPairs (b :: rest) p q hmem
      exact ⟨List.mem_cons_of_mem _ ih.1, List.mem_cons_of_mem _ ih.2⟩

lemma head_le_of_mem {a p : ℚ × ℚ} {tail : List (ℚ × ℚ)}
    (hs : (a :: tail).Pairwise tblRel) (hp : p ∈ a :: tail) : a.1 ≤ p.1 := by
  rcases List.mem_cons.mp hp with rfl | hp'
  · exact le_refl _
  · exact le_of_lt ((List.pairwise_cons.mp hs).1 p hp').1

/-- On a sorted column, the loop returns the linear interpolant of any
consecutive breakpoint pair that brackets the (already clamped) height. -/
lemma interpLoop_eq_interp (l : List (ℚ × ℚ)) (last : ℚ) (p q : ℚ × ℚ) (h : ℚ)
    (hl : p.1 ≤ h) (hr : h ≤ q.1) :
    l.Pairwise tblRel → (p, q) ∈ consecPairs l →
    interpLoop l h last = p.2 + (q.2 - p.2) * ((h - p.1) / (q.1 - p.1)) := by
  induction l with
  | nil => intro _ hm; simp [consecPairs_nil] at hm
  | cons a tail ih =>
    cases tail with
    | nil => intro _ hm; simp [consecPairs_single] at hm
    | cons b rest =>
      intro hs hm
      rw [consecPairs_cons_cons] at hm
      have hab : tblRel a b := (List.pairwise_cons.mp hs).1 b (List.mem_cons_self _ _)
      have hs' : (b :: rest).Pairwise tblRel := (List.pairwise_cons.mp hs).2
      rw [interpLoop_cons_cons]
      rcases List.mem_cons.mp hm with heq | hmem
      · rw [Prod.mk.injEq] at heq
        obtain ⟨rfl, rfl⟩ := heq
        rw [if_pos ⟨hl, hr⟩]
      · have hpb : b.1 ≤ p.1 :=
          head_le_of_mem hs' (mem_of_mem_consecPairs _ _ _ hmem).1
        by_cases hcond : a.1 ≤ h ∧ h ≤ b.1
        · have hhb : h = b.1 := le_antisymm hcond.2 (le_trans hpb hl)
          subst hhb
          have hpb1 : p.1 = b.1 := le_antisymm hl hpb
          cases rest with
          | nil => simp [consecPairs_single] at hmem
          | cons c rest' =>
            rw [consecPairs_cons_cons] at hmem
            rcases List.mem_cons.mp hmem with heq' | hmem'
            · rw [Prod.mk.injEq] at heq'
              rw [heq'.1, heq'.2, if_pos hcond]
              have hne : b.1 - a.1 ≠ 0 := sub_ne_zero.mpr (ne_of_gt hab.1)
              rw [div_self hne, sub_self, zero_div, mul_zero, add_zero, mul_one]
              ring
            · exfalso
              have hlt : b.1 < p.1 :=
                ((List.pairwise_cons.mp hs').1 p
                  (mem_of_mem_consecPairs _ _ _ hmem').1).1
              rw [hpb1] at hlt
              exact lt_irrefl _ hlt
        · rw [if_neg hcond]
          exact ih hs' hmem

/-- On a sorted column with at least two breakpoints, the loop returns
the exact tabulated value at every breakpoint height. -/
lemma interpLoop_at_mem (l : List (ℚ × ℚ)) (last : ℚ) :
    l.Pairwise tblRel → 2 ≤ l.length →
    ∀ p ∈ l, interpLoop l p.1 last = p.2 := by
  induction l with
  | nil => intro _ hlen; norm_num at hlen
  | cons a tail ih =>
    cases tail with
    | nil => intro _ hlen; norm_num at hlen
    | cons b rest =>
      intro hs _ p hp
      have hab : tblRel a b := (List.pairwise_cons.mp hs).1 b (List.mem_cons_self _ _)
      have hs' : (b :: rest).Pairwise tblRel := (List.pairwise_cons.mp hs).2
      rw [interpLoop_cons_cons]
      rcases List.mem_cons.mp hp with rfl | hp'
      · rw [if_pos ⟨le_refl _, le_of_lt hab.1⟩]
        rw [sub_self, zero_div, mul_zero, add_zero]
      · rcases List.mem_cons.mp hp' with heqb | hp''
        · rw [heqb, if_pos ⟨le_of_lt hab.1, le_refl _⟩]
          have hne : b.1 - a.1 ≠ 0 := sub_ne_zero.mpr (ne_of_gt hab.1)
          rw [div_self hne, mul_one]
          ring
        · have hbp : b.1 < p.1 := ((List.pairwise_cons.mp hs').1 p hp'').1
          have hnc : ¬(a.1 ≤ p.1 ∧ p.1 ≤ b.1) := fun hc => absurd hc.2 (not_le.mpr hbp)
          rw [if_neg hnc]
          have hlen2 : 2 ≤ (b :: rest).length := by
            have hpos : 0 < rest.length :=
              List.length_pos.mpr (List.ne_nil_of_mem hp'')
            simp only [List.length_cons]
            omega
          exact ih hs' hlen2 p hp'

/-- On a sorted column with non-decreasing values, the loop is monotone
in the height over the clamped domain [first breakpoint, last breakpoint]. -/
lemma interpLoop_mono (l : List (ℚ × ℚ)) (last y : ℚ) :
    l.Pairwise tblRel → y ≤ (l.getLastD (0, 0)).1 →
    ∀ x, (l.headD (0, 0)).1 ≤ x → x ≤ y →
    interpLoop l x last ≤ interpLoop l y last := by
  induction l with
  | nil => intro _ _ x _ _; rw [interpLoop_nil, interpLoop_nil]
  | cons a tail ih =>
    cases tail with
    | nil => intro _ _ x _ _; rw [interpLoop_single, interpLoop_single]
    | cons b rest =>
      intro hs hy x hx hxy
      have hax : a.1 ≤ x := hx
      have hab : tblRel a b := (List.pairwise_cons.mp hs).1 b (List.mem_cons_self _ _)
      have hs' : (b :: rest).Pairwise tblRel := (List.pairwise_cons.mp hs).2
      have hy' : y ≤ ((b :: rest).getLastD (0, 0)).1 := by
        rw [List.getLastD_cons] at hy ⊢
        cases rest with
        | nil => simpa using hy
        | cons c rest' => simpa using hy
      have hd : (0 : ℚ) < b.1 - a.1 := sub_pos.mpr hab.1
      have hk : (0 : ℚ) ≤ b.2 - a.2 := sub_nonneg.mpr hab.2
      rw [interpLoop_cons_cons, interpLoop_cons_cons]
      by_cases hyb : y ≤ b.1
      · have hxb : x ≤ b.1 := le_trans hxy hyb
        rw [if_pos ⟨hx, hxb⟩, if_pos ⟨le_trans hx hxy, hyb⟩]
        have hdiv : (x - a.1) / (b.1 - a.1) ≤ (y - a.1) / (b.1 - a.1) :=
          (div_le_div_iff_of_pos_right hd).mpr (by linarith)
        nlinarith [mul_le_mul_of_nonneg_left hdiv hk]
      · push_neg at hyb
        have hny : ¬(a.1 ≤ y ∧ y ≤ b.1) := fun hc => absurd hc.2 (not_le.mpr hyb)
        by_cases hxb : x ≤ b.1
        · rw [if_pos ⟨hx, hxb⟩, if_neg hny]
          cases rest with
          | nil =>
            exfalso
            rw [List.getLastD_cons] at hy'
            simp at hy'
            exact absurd hy' (not_le.mpr hyb)
          | cons c rest' =>
            have hbc : tblRel b c := (List.pairwise_cons.mp hs').1 c (List.mem_cons_self _ _)
            have h2 : interpLoop (b :: c :: rest') b.1 last = b.2 := by
              rw [interpLoop_cons_cons, if_pos ⟨le_refl _, le_of_lt hbc.1⟩]
              rw [sub_self, zero_div, mul_zero, add_zero]
            have h3 := ih hs' hy' b.1 (le_refl _) (le_of_lt hyb)
            rw [h2] at h3
            have hr1 : (x - a.1) / (b.1 - a.1) ≤ 1 := by
              rw [div_le_one hd]; linarith
            have hr0 : (0 : ℚ) ≤ (x - a.1) / (b.1 - a.1) :=
              div_nonneg (by linarith) (le_of_lt hd)
            have h1 : a.2 + (b.2 - a.2) * ((x - a.1) / (b.1 - a.1)) ≤ b.2 := by
              nlinarith [mul_le_mul_of_nonneg_left hr1 hk]
            linarith
        · push_neg at hxb
          have hnx : ¬(a.1 ≤ x ∧ x ≤ b.1) := fun hc => absurd hc.2 (not_le.mpr hxb)
          rw [if_neg hnx, if_neg hny]
          exact ih hs' hy' x (le_of_lt hxb) hxy

/-- The interpolated coefficient of any height is bracketed by the values
of the loop at the first (15 ft) and last (500 ft) breakpoints. -/
lemma interpLoop_bounds (tbl : List (ℚ × ℚ)) (hgood : goodTable tbl) (h : ℚ) :
    interpLoop tbl 15 (dictGet 500 tbl) ≤ interpLoop tbl (clampH h) (dictGet 500 tbl) ∧
    interpLoop tbl (clampH h) (dictGet 500 tbl) ≤ interpLoop tbl 500 (dictGet 500 tbl) := by
  obtain ⟨hs, _, hhead, hlast, _⟩ := hgood
  constructor
  · exact interpLoop_mono tbl _ (clampH h) hs (by rw [hlast]; exact clampH_ub h)
      15 (le_of_eq hhead) (clampH_lb h)
  · exact interpLoop_mono tbl _ 500 hs (le_of_eq hlast.symm)
      (clampH h) (by rw [hhead]; exact clampH_lb h) (clampH_ub h)

-- Concrete evaluations of the loop at the clamp endpoints and at the
-- heights used by the witnesses.

lemma interp_tableB_15 : interpLoop tableB 15 (dictGet 500 tableB) = 0.57 := by
  norm_num [interpLoop, tableB, dictGet]

lemma interp_tableB_500 : interpLoop tableB 500 (dictGet 500 tableB) = 1.56 := by
  norm_num [interpLoop, tableB, dictGet]

lemma interp_tableC_15 : interpLoop tableC 15 (dictGet 500 tableC) = 0.85 := by
  norm_num [interpLoop, tableC, dictGet]

lemma interp_tableC_500 : interpLoop tableC 500 (dictGet 500 tableC) = 1.77 := by
  norm_num [interpLoop, tableC, dictGet]

lemma interp_tableD_15 : interpLoop tableD 15 (dictGet 500 tableD) = 1.03 := by
  norm_num [interpLoop, tableD, dictGet]

lemma interp_tableD_500 : interpLoop tableD 500 (dictGet 500 tableD) = 1.89 := by
  norm_num [interpLoop, tableD, dictGet]

lemma get_kz_30_C : get_kz 30 "C" = Except.ok 0.98 := by
  rw [get_kz_eq kzTable_C]
  norm_num [interpLoop, clampH, tableC, dictGet]

lemma get_kz_20_B : get_kz 20 "B" = Except.ok 0.62 := by
  rw [get_kz_eq kzTable_B]
  norm_num [interpLoop, clampH, tableB, dictGet]

lemma get_kz_30_B : get_kz 30 "B" = Except.ok 0.70 := by
  rw [get_kz_eq kzTable_B]
  norm_num [interpLoop, clampH, tableB, dictGet]

-- ===================================================================
-- Claim theorems
-- ===================================================================

/-- Claim C1: for every site input whose exposure lookup succeeds, the
velocity pressure is computed as `qh = 0.00256 * Kh * Kzt * Kd * Ke * V^2`,
where `Kh` is the exposure coefficient looked up by `get_kz` at the
site's height and exposure category and `V` is the basic wind speed. -/
theorem velocity_pressure_formula (h V Kd k : ℚ) (e : String)
    (hk : get_kz h e = Except.ok k) :
    q_calc h e V Kd = Except.ok (0.00256 * k * Kzt * Kd * Ke * V ^ 2) := by
  rw [q_calc, hk]
  rfl

theorem velocity_pressure_formula_witness :
    q_calc 30 "C" 115 0.85 = Except.ok (0.00256 * 0.98 * Kzt * 0.85 * Ke * 115 ^ 2) :=
  velocity_pressure_formula 30 115 0.85 0.98 "C" get_kz_30_C

/-- Claim C2: for every exposure category whose column is in the table
and every height between two consecutive breakpoints `(h1, k1)` and
`(h2, k2)` of that column, `get_kz` returns the linear interpolant
`k1 + (k2 - k1) * (h - h1) / (h2 - h1)`. -/
theorem get_kz_linear_between_breakpoints (cat : String) (tbl : List (ℚ × ℚ))
    (h1 k1 h2 k2 h : ℚ) (ht : kzTable cat = some tbl)
    (hc : ((h1, k1), (h2, k2)) ∈ consecPairs tbl)
    (hl : h1 ≤ h) (hr : h ≤ h2) :
    get_kz h cat = Except.ok (k1 + (k2 - k1) * ((h - h1) / (h2 - h1))) := by
  obtain ⟨hs, hbnd, _, _, _⟩ := goodTable_of_kzTable ht
  have hmem := mem_of_mem_consecPairs tbl (h1, k1) (h2, k2) hc
  have hb1 : 15 ≤ h1 := (hbnd _ hmem.1).1
  have hb2 : h2 ≤ 500 := (hbnd _ hmem.2).2
  rw [get_kz_eq ht, clampH_eq_self (le_trans hb1 hl) (le_trans hr hb2)]
  rw [interpLoop_eq_interp tbl _ (h1, k1) (h2, k2) h hl hr hs hc]

theorem get_kz_linear_between_breakpoints_witness :
    get_kz 17 "B" = Except.ok (0.57 + (0.62 - 0.57) * ((17 - 15) / (20 - 15))) :=
  get_kz_linear_between_breakpoints "B" tableB 15 0.57 20 0.62 17 kzTable_B
    (by norm_num [consecPairs, tableB]) (by norm_num) (by norm_num)

/-- Claim C3: for every exposure category whose column is in the table,
a height at or below the lowest tabulated breakpoint yields the value at
the lowest breakpoint, and a height at or above the highest tabulated
breakpoint yields the value at the highest breakpoint (the lookup is
total: it clamps instead of extrapolating). -/
theorem get_kz_clamping (cat : String) (tbl : List (ℚ × ℚ))
    (ht : kzTable cat = some tbl) (h : ℚ) :
    (h ≤ (tbl.headD (0, 0)).1 →
      get_kz h cat = Except.ok ((tbl.headD (0, 0)).2)) ∧
    ((tbl.getLastD (0, 0)).1 ≤ h →
      get_kz h cat = Except.ok ((tbl.getLastD (0, 0)).2)) := by
  have hcases := kzTable_cases ht
  constructor
  · intro hle
    rcases hcases with rfl | rfl | rfl <;>
      [rw [get_kz_eq ht, clampH_of_le (by simpa [tableB] using hle)];
       rw [get_kz_eq ht, clampH_of_le (by simpa [tableC] using hle)];
       rw [get_kz_eq ht, clampH_of_le (by simpa [tableD] using hle)]]
    · rw [interp_tableB_15]; norm_num [tableB]
    · rw [interp_tableC_15]; norm_num [tableC]
    · rw [interp_tableD_15]; norm_num [tableD]
  · intro hge
    rcases hcases with rfl | rfl | rfl <;>
      [rw [get_kz_eq ht, clampH_of_ge (by simpa [tableB, List.getLastD] using hge)];
       rw [get_kz_eq ht, clampH_of_ge (by simpa [tableC, List.getLastD] using hge)];
       rw [get_kz_eq ht, clampH_of_ge (by simpa [tableD, List.getLastD] using hge)]]
    · rw [interp_tableB_500]; norm_num [tableB, List.getLastD]
    · rw [interp_tableC_500]; norm_num [tableC, List.getLastD]
    · rw [interp_tableD_500]; norm_num [tableD, List.getLastD]

theorem get_kz_clamping_witness :
    get_kz 10 "B" = Except.ok ((tableB.headD (0, 0)).2) :=
  (get_kz_clamping "B" tableB kzTable_B 10).1 (by norm_num [tableB])

/-- Claim C4 counterexample: the code's ground elevation factor is the
hard-coded constant `Ke = 1.0`; at the positive elevation 1000 ft it is
not `exp(-0.0000362 * 1000)` as the claim requires. -/
theorem Ke_not_elevation_dependent :
    0 < (1000 : ℝ) ∧ ((Ke : ℝ) : ℝ) ≠ Real.exp (-0.0000362 * 1000) := by
  refine ⟨by norm_num, ?_⟩
  have h1 : ((Ke : ℝ) : ℝ) = 1 := by norm_num [Ke]
  have h2 : Real.exp (-0.0000362 * 1000) < 1 := by
    have hlt := Real.exp_lt_exp.mpr (show (-0.0000362 * 1000 : ℝ) < 0 by norm_num)
    rwa [Real.exp_zero] at hlt
  rw [h1]
  intro hcon
  rw [← hcon] at h2
  exact lt_irrefl _ h2

/-- Claim C4 (amended): the ground elevation factor `Ke` is the constant
1.0 for every site elevation; the app never applies the exponential
elevation adjustment. -/
theorem Ke_constant_one : ∀ _elevationFt : ℝ, (Ke : ℝ) = 1 := by
  intro _
  norm_num [Ke]

/-- Claim C5: `get_kz` fails (the `KeyError` of the dict access
`table[exposure]`) exactly when the exposure category is not one of
{B, C, D}; for the three valid categories it always returns a
coefficient, and it never silently defaults on an invalid one. -/
theorem get_kz_exposure_validation (h : ℚ) (cat : String) :
    ((cat = "B" ∨ cat = "C" ∨ cat = "D") → ∃ k, get_kz h cat = Except.ok k) ∧
    (cat ≠ "B" → cat ≠ "C" → cat ≠ "D" → get_kz h cat = Except.error "KeyError") := by
  constructor
  · rintro (rfl | rfl | rfl)
    · exact ⟨_, get_kz_eq kzTable_B h⟩
    · exact ⟨_, get_kz_eq kzTable_C h⟩
    · exact ⟨_, get_kz_eq kzTable_D h⟩
  · intro h1 h2 h3
    unfold get_kz kzTable
    rw [if_neg h1, if_neg h2, if_neg h3]

theorem get_kz_exposure_validation_witness :
    (∃ k, get_kz 30 "B" = Except.ok k) ∧ get_kz 30 "Z" = Except.error "KeyError" :=
  ⟨(get_kz_exposure_validation 30 "B").1 (Or.inl rfl),
   (get_kz_exposure_validation 30 "Z").2 (by simp) (by simp) (by simp)⟩

/-- Claim C6: for a fixed exposure category, the coefficient returned by
`get_kz` is non-decreasing in the height. -/
theorem get_kz_monotone (cat : String) (ha hb ka kb : ℚ) (hab : ha ≤ hb)
    (hA : get_kz ha cat = Except.ok ka) (hB : get_kz hb cat = Except.ok kb) :
    ka ≤ kb := by
  cases hcat : kzTable cat with
  | none =>
    unfold get_kz at hA
    rw [hcat] at hA
    cases hA
  | some tbl =>
    obtain ⟨hs, _, hhead, hlast, _⟩ := goodTable_of_kzTable hcat
    rw [get_kz_eq hcat] at hA hB
    cases hA
    cases hB
    exact interpLoop_mono tbl _ (clampH hb) hs
      (by rw [hlast]; exact clampH_ub hb)
      (clampH ha) (by rw [hhead]; exact clampH_lb ha) (clampH_mono hab)

theorem get_kz_monotone_witness : (0.62 : ℚ) ≤ 0.70 :=
  get_kz_monotone "B" 20 30 0.62 0.70 (by norm_num) get_kz_20_B get_kz_30_B

/-- Claim C7: for every exposure category whose column is in the table
and every tabulated breakpoint `(hb, kb)` of that column, `get_kz` at
exactly the breakpoint height returns exactly the tabulated value. -/
theorem get_kz_at_breakpoint (cat : String) (tbl : List (ℚ × ℚ))
    (ht : kzTable cat = some tbl) (hb kb : ℚ) (hmem : (hb, kb) ∈ tbl) :
    get_kz hb cat = Except.ok kb := by
  obtain ⟨hs, hbnd, _, _, hlen⟩ := goodTable_of_kzTable ht
  have h15 : 15 ≤ hb := (hbnd _ hmem).1
  have h500 : hb ≤ 500 := (hbnd _ hmem).2
  rw [get_kz_eq ht, clampH_eq_self h15 h500]
  rw [interpLoop_at_mem tbl _ hs hlen (hb, kb) hmem]

theorem get_kz_at_breakpoint_witness : get_kz 40 "C" = Except.ok 1.04 :=
  get_kz_at_breakpoint "C" tableC kzTable_C 40 1.04 (by norm_num [tableC])

/-- Claim C8 counterexample: on the concrete scenario (Exposure C,
h = 30 ft, V = 115 mph, Kd = 0.85) the engine's velocity pressure is
28.202048 psf — not within any rounding tolerance of the claimed
23.9 psf. -/
theorem scenario_qh_differs_from_claimed :
    q_calc 30 "C" 115 0.85 = Except.ok 28.202048 ∧
    ¬ |(28.202048 : ℚ) - 23.9| ≤ 0.5 := by
  constructor
  · rw [q_calc, get_kz_30_C]
    show Except.ok _ = _
    rw [Except.ok.injEq]
    norm_num [Kzt, Ke]
  · rw [abs_of_nonneg (by norm_num)]
    norm_num

/-- Claim C8 (amended): on the concrete scenario (Exposure C, h = 30 ft,
V = 115 mph, Kd = 0.85, Kzt = 1.0, elevation ignored) the engine yields
Kh = 0.98, Ke = 1.0, and qh = 0.00256 × 0.98 × 1.0 × 0.85 × 1.0 × 115²
= 28.202048 ≈ 28.2 psf. -/
theorem scenario_values :
    get_kz 30 "C" = Except.ok 0.98 ∧ Ke = 1 ∧
    q_calc 30 "C" 115 0.85 = Except.ok 28.202048 := by
  refine ⟨get_kz_30_C, by norm_num [Ke], ?_⟩
  rw [q_calc, get_kz_30_C]
  show Except.ok _ = _
  rw [Except.ok.injEq]
  norm_num [Kzt, Ke]

/-- Claim C9: the coefficient-based design-pressure path computes
`p = qh * (GCp - GCpi)` for every velocity pressure and coefficient
pair; in particular `resolveCoefficientMethod 25 (-1.1) 0.18` yields
-32 psf. -/
theorem coefficient_method_pressure :
    (∀ qh GCp GCpi : ℚ,
      (resolveCoefficientMethod qh GCp GCpi).1 = qh * (GCp - GCpi)) ∧
    (resolveCoefficientMethod 25 (-1.1) 0.18).1 = -32 := by
  refine ⟨fun qh GCp GCpi => rfl, ?_⟩
  show (25 : ℚ) * (-1.1 - 0.18) = -32
  norm_num

/-- Claim C10: for every height and every exposure category on which the
lookup succeeds, the returned coefficient lies between the category's
smallest tabulated coefficient (its 15 ft value) and its largest (its
500 ft value), inclusive. -/
theorem get_kz_bounds (h : ℚ) (cat : String) (k : ℚ)
    (hk : get_kz h cat = Except.ok k) :
    (cat = "B" → 0.57 ≤ k ∧ k ≤ 1.56) ∧
    (cat = "C" → 0.85 ≤ k ∧ k ≤ 1.77) ∧
    (cat = "D" → 1.03 ≤ k ∧ k ≤ 1.89) := by
  refine ⟨?_, ?_, ?_⟩ <;> rintro rfl
  · rw [get_kz_eq kzTable_B] at hk
    cases hk
    have hb := interpLoop_bounds tableB goodTable_tableB h
    rw [interp_tableB_15, interp_tableB_500] at hb
    exact hb
  · rw [get_kz_eq kzTable_C] at hk
    cases hk
    have hb := interpLoop_bounds tableC goodTable_tableC h
    rw [interp_tableC_15, interp_tableC_500] at hb
    exact hb
  · rw [get_kz_eq kzTable_D] at hk
    cases hk
    have hb := interpLoop_bounds tableD goodTable_tableD h
    rw [interp_tableD_15, interp_tableD_500] at hb
    exact hb

theorem get_kz_bounds_witness : (0.57 : ℚ) ≤ 0.70 ∧ (0.70 : ℚ) ≤ 1.56 :=
  (get_kz_bounds 30 "B" 0.70 get_kz_30_B).1 rfl
